import Mathlib

/-!
Shallow embedding of btimby/fs-dropbox (src/dropboxfs.py) and proofs about it.

The repository wraps the Dropbox REST client with a metadata cache
(`DropboxCache` keyed by path, holding `CacheItem`s), spooled upload/download
streams (`SpooledWriter`, `SpooledReader`), and a pyFilesystem adapter
(`DropboxFS`).  Remote calls are modelled as oracle arguments (the value the
wrapped `dropbox.client.DropboxClient` call would produce), cache state is
passed explicitly, and the wall clock is an explicit `now` argument.

Path helpers (`pathsplit`, `basename`, `dirname`) come from the external
`fs.path` collaborator library: `pathsplit` normalizes and splits at the last
separator, with the parent of a top-level absolute path being the root `"/"`.
The cache is only ever handed normalized absolute paths by the adapter
(`abspath(normpath(path))`), which the `goodAbs` predicate captures.
-/

namespace DropboxFs

/-- Auxiliary scanner for `pathsplit`: returns `(some head, tail)` when the
list contains a `'/'`, where `tail` is everything after the last `'/'` and
`head` everything before it, and `(none, cs)` when there is no `'/'`. -/
def psAux : List Char → Option (List Char) × List Char
  | [] => (none, [])
  | c :: rest =>
    match psAux rest with
    | (some d, b) => (some (c :: d), b)
    | (none, b) => if c = '/' then (some [], b) else (none, c :: b)

/-- Model of `fs.path.pathsplit` on normalized input: split at the last
separator into `(dirname, basename)`; a path with no separator has dirname
`""`, and the parent of a top-level absolute path is the root `"/"`. -/
def pathsplit (p : String) : String × String :=
  match psAux p.toList with
  | (none, b) => ("", String.mk b)
  | (some [], b) => ("/", String.mk b)
  | (some d, b) => (String.mk d, String.mk b)

/-- Model of `fs.path.basename`. -/
def basename (p : String) : String := (pathsplit p).2

/-- Model of `fs.path.dirname`. -/
def dirname (p : String) : String := (pathsplit p).1

/-- Joining a directory path and a child name (the spec's `P/name`,
`fs.path.pathjoin` on normalized input). -/
def joinp (d b : String) : String :=
  if d = "" then b else if d = "/" then "/" ++ b else d ++ "/" ++ b

/-- True when the string contains no path separator. -/
def noSlashS (s : String) : Bool := decide ('/' ∉ s.toList)

/-- Scanner for `goodAbsL`: checks that a character list is a `'/'`-separated
sequence of nonempty segments, given whether we are currently inside a
segment; rejects empty segments and a trailing separator. -/
def okFrom : Bool → List Char → Bool
  | inSeg, [] => inSeg
  | inSeg, c :: rest => if c = '/' then inSeg && okFrom false rest else okFrom true rest

/-- List-level normalized-absolute-path check, see `goodAbs`. -/
def goodAbsL : List Char → Bool
  | [] => false
  | c :: rest => if c = '/' then rest.isEmpty || okFrom false rest else false

/-- A normalized absolute path: starts with `'/'`, no empty segments, no
trailing separator (except the root `"/"` itself).  Every path the adapter
hands to the cache layer has this shape (`abspath(normpath(path))`). -/
def goodAbs (p : String) : Bool := goodAbsL p.toList

section PathLemmas

theorem psAux_no_slash (b : List Char) (h : '/' ∉ b) : psAux b = (none, b) := by
  induction b with
  | nil => rfl
  | cons c t ih =>
    have hc : c ≠ '/' := fun hc => h (hc ▸ List.mem_cons_self c t)
    have ht : '/' ∉ t := fun ht => h (List.mem_cons_of_mem _ ht)
    simp only [psAux, ih ht, if_neg hc]

theorem psAux_append (d b : List Char) (h : '/' ∉ b) :
    psAux (d ++ '/' :: b) = (some d, b) := by
  induction d with
  | nil => simp [psAux, psAux_no_slash b h]
  | cons c t ih => simp [psAux, ih]

theorem psAux_none {cs b : List Char} (h : psAux cs = (none, b)) :
    b = cs ∧ '/' ∉ cs := by
  induction cs generalizing b with
  | nil =>
    simp only [psAux, Prod.mk.injEq, true_and] at h
    exact ⟨h.symm, by simp⟩
  | cons c t ih =>
    simp only [psAux] at h
    rcases hr : psAux t with ⟨d?, b'⟩
    rw [hr] at h
    cases d? with
    | some d => simp at h
    | none =>
      by_cases hc : c = '/'
      · simp [hc] at h
      · simp only [if_neg hc, Prod.mk.injEq, true_and] at h
        obtain ⟨hb', ht⟩ := ih hr
        subst hb'
        refine ⟨h.symm, ?_⟩
        intro hmem
        rcases List.mem_cons.mp hmem with hh | hh
        · exact hc hh.symm
        · exact ht hh

theorem psAux_some {cs d b : List Char} (h : psAux cs = (some d, b)) :
    cs = d ++ '/' :: b ∧ '/' ∉ b := by
  induction cs generalizing d b with
  | nil => simp [psAux] at h
  | cons c t ih =>
    simp only [psAux] at h
    rcases hr : psAux t with ⟨d?, b'⟩
    rw [hr] at h
    cases d? with
    | some d' =>
      simp only [Prod.mk.injEq, Option.some.injEq] at h
      obtain ⟨hd, hb⟩ := h
      obtain ⟨ht, hb'⟩ := ih hr
      subst hd hb
      exact ⟨by rw [ht]; rfl, hb'⟩
    | none =>
      by_cases hc : c = '/'
      · simp only [if_pos hc, Prod.mk.injEq, Option.some.injEq] at h
        obtain ⟨hd, hb⟩ := h
        obtain ⟨hb', ht⟩ := psAux_none hr
        subst hc hb hb'
        rw [← hd]
        exact ⟨rfl, ht⟩
      · simp [hc] at h

theorem toList_append (s t : String) : (s ++ t).toList = s.toList ++ t.toList := rfl

theorem toList_inj {s t : String} (h : s.toList = t.toList) : s = t := by
  have := congrArg String.mk h
  exact this

theorem noSlashS_iff {s : String} : noSlashS s = true ↔ '/' ∉ s.toList := by
  simp [noSlashS]

theorem okFrom_append (i : Bool) (xs ys : List Char) :
    okFrom i (xs ++ '/' :: ys) = (okFrom i xs && okFrom false ys) := by
  induction xs generalizing i with
  | nil => simp [okFrom]
  | cons c t ih =>
    by_cases hc : c = '/'
    · simp [okFrom, hc, ih, Bool.and_assoc]
    · simp [okFrom, hc, ih]

theorem okFrom_true_of_no_slash {cs : List Char} (h : '/' ∉ cs) :
    okFrom true cs = true := by
  induction cs with
  | nil => rfl
  | cons c t ih =>
    have hc : c ≠ '/' := fun hc => h (hc ▸ List.mem_cons_self c t)
    simp [okFrom, hc, ih (fun ht => h (List.mem_cons_of_mem _ ht))]

theorem okFrom_false_of_no_slash {cs : List Char} (h : '/' ∉ cs) (hne : cs ≠ []) :
    okFrom false cs = true := by
  cases cs with
  | nil => exact absurd rfl hne
  | cons c t =>
    have hc : c ≠ '/' := fun hc => h (hc ▸ List.mem_cons_self c t)
    simp [okFrom, hc, okFrom_true_of_no_slash (fun ht => h (List.mem_cons_of_mem _ ht))]

theorem goodAbsL_iff {cs : List Char} :
    goodAbsL cs = true ↔ ∃ r, cs = '/' :: r ∧ (r.isEmpty || okFrom false r) = true := by
  cases cs with
  | nil => simp [goodAbsL]
  | cons c rest =>
    by_cases hc : c = '/'
    · subst hc
      simp only [goodAbsL, if_pos rfl]
      constructor
      · intro h; exact ⟨rest, rfl, h⟩
      · rintro ⟨r, hr, h2⟩
        injection hr with _ h3
        rw [h3]; exact h2
    · simp only [goodAbsL, if_neg hc]
      constructor
      · intro h; exact absurd h (by simp)
      · rintro ⟨r, hr, _⟩
        injection hr with h2 _
        exact absurd h2 hc

theorem goodAbs_startsSlash {p : String} (h : goodAbs p = true) :
    ∃ r, p.toList = '/' :: r := by
  obtain ⟨r, hr, _⟩ := goodAbsL_iff.mp h
  exact ⟨r, hr⟩

theorem ne_empty_of_toList {s : String} {c : Char} {r : List Char}
    (h : s.toList = c :: r) : s ≠ "" := by
  intro he
  rw [he] at h
  simp at h

theorem eq_root_iff {s : String} : s = "/" ↔ s.toList = ['/'] := by
  constructor
  · intro h; rw [h]; rfl
  · intro h; exact toList_inj h

theorem toList_join_slash (q n : String) :
    (q ++ "/" ++ n).toList = q.toList ++ '/' :: n.toList := by
  rw [toList_append, toList_append]
  simp [show "/".toList = ['/'] from rfl]

/-- For a normalized absolute path, `pathsplit` is a section of `joinp`, and
the basename carries no separator. -/
theorem joinp_pathsplit {p : String} (h : goodAbs p = true) :
    joinp (pathsplit p).1 (pathsplit p).2 = p ∧ noSlashS (pathsplit p).2 = true := by
  obtain ⟨r, hlist⟩ := goodAbs_startsSlash h
  rcases hps : psAux p.toList with ⟨d?, b⟩
  cases d? with
  | none =>
    obtain ⟨_, hns⟩ := psAux_none hps
    exact absurd (hlist ▸ List.mem_cons_self '/' r) hns
  | some d =>
    obtain ⟨hdecomp, hb⟩ := psAux_some hps
    have hbS : noSlashS (String.mk b) = true := noSlashS_iff.mpr hb
    cases d with
    | nil =>
      have hsplit : pathsplit p = ("/", String.mk b) := by unfold pathsplit; rw [hps]
      rw [hsplit]
      refine ⟨toList_inj ?_, hbS⟩
      rw [show joinp "/" (String.mk b) = "/" ++ String.mk b by unfold joinp; simp]
      rw [toList_append, hdecomp]
      rfl
    | cons c d' =>
      have hsplit : pathsplit p = (String.mk (c :: d'), String.mk b) := by
        unfold pathsplit; rw [hps]
      have hne1 : String.mk (c :: d') ≠ "" := by
        intro he
        have h2 : c :: d' = ([] : List Char) := congrArg String.data he
        simp at h2
      have hne2 : String.mk (c :: d') ≠ "/" := by
        intro he
        have h2 : c :: d' = ['/'] := congrArg String.data he
        simp only [List.cons.injEq] at h2
        obtain ⟨hc, hd'⟩ := h2
        rw [hc, hd'] at hdecomp
        obtain ⟨r2, hr2, hok⟩ := goodAbsL_iff.mp h
        rw [hdecomp] at hr2
        simp only [List.cons_append, List.nil_append, List.cons.injEq, true_and] at hr2
        rw [← hr2] at hok
        simp [okFrom] at hok
      rw [hsplit]
      refine ⟨toList_inj ?_, hbS⟩
      rw [show joinp (String.mk (c :: d')) (String.mk b)
            = String.mk (c :: d') ++ "/" ++ String.mk b by
          unfold joinp; rw [if_neg hne1, if_neg hne2]]
      rw [toList_join_slash, hdecomp]
      rfl

/-- Splitting a join recovers the components, provided the directory part is
absolute and the name carries no separator. -/
theorem pathsplit_joinp {q n : String} (hq : ∃ r, q.toList = '/' :: r)
    (hn : noSlashS n = true) : pathsplit (joinp q n) = (q, n) := by
  obtain ⟨r, hlist⟩ := hq
  have hnn : '/' ∉ n.toList := noSlashS_iff.mp hn
  by_cases hq1 : q = "/"
  · subst hq1
    have hj : joinp "/" n = "/" ++ n := by unfold joinp; simp
    rw [hj]
    have hl2 : ("/" ++ n).toList = [] ++ '/' :: n.toList := by rw [toList_append]; rfl
    unfold pathsplit
    rw [hl2, psAux_append _ _ hnn]
    simp [toList_inj]
  · have hne : q ≠ "" := ne_empty_of_toList hlist
    have hj : joinp q n = q ++ "/" ++ n := by unfold joinp; rw [if_neg hne, if_neg hq1]
    rw [hj]
    unfold pathsplit
    rw [toList_join_slash, psAux_append _ _ hnn, hlist]
    cases r with
    | nil => exact absurd (eq_root_iff.mpr hlist) hq1
    | cons c r' =>
      show (String.mk ('/' :: c :: r'), String.mk n.toList) = (q, n)
      rw [← hlist]
      rfl

/-- Joining a nonempty separator-free name under a normalized absolute path
yields a normalized absolute path. -/
theorem goodAbs_joinp {q n : String} (hq : goodAbs q = true) (hn : noSlashS n = true)
    (hne : n ≠ "") : goodAbs (joinp q n) = true := by
  have hnn : '/' ∉ n.toList := noSlashS_iff.mp hn
  have hnl : n.toList ≠ [] := by
    intro h0
    exact hne (toList_inj (s := n) (t := "") h0)
  obtain ⟨r, hlist⟩ := goodAbs_startsSlash hq
  by_cases hq1 : q = "/"
  · subst hq1
    have hj : joinp "/" n = "/" ++ n := by unfold joinp; simp
    rw [hj]
    unfold goodAbs
    apply goodAbsL_iff.mpr
    refine ⟨n.toList, by rw [toList_append]; rfl, ?_⟩
    rw [okFrom_false_of_no_slash hnn hnl]
    simp
  · have hne' : q ≠ "" := ne_empty_of_toList hlist
    have hj : joinp q n = q ++ "/" ++ n := by unfold joinp; rw [if_neg hne', if_neg hq1]
    rw [hj]
    have hrne : r ≠ [] := by
      intro h0
      rw [h0] at hlist
      exact hq1 (eq_root_iff.mpr hlist)
    have hok : okFrom false r = true := by
      obtain ⟨r2, hr2, hok2⟩ := goodAbsL_iff.mp hq
      rw [hlist] at hr2
      have : r2 = r := by injection hr2 with _ h2; exact h2.symm
      rw [this] at hok2
      rcases r with _ | ⟨c, r'⟩
      · exact absurd rfl hrne
      · simpa using hok2
    unfold goodAbs
    apply goodAbsL_iff.mpr
    refine ⟨r ++ '/' :: n.toList, by rw [toList_join_slash, hlist]; rfl, ?_⟩
    rw [okFrom_append, hok, okFrom_false_of_no_slash hnn hnl]
    simp

end PathLemmas

/-! ## Data model: metadata records, cache items, the cache, error taxonomy -/

/-- Values stored in a Dropbox metadata record (a Python dict). -/
inductive MVal where
  | vs : String → MVal
  | vb : Bool → MVal
  | vi : Int → MVal
deriving DecidableEq

/-- Python truthiness of a metadata value. -/
def MVal.truthy : MVal → Bool
  | .vs s => s ≠ ""
  | .vb b => b
  | .vi n => n ≠ 0

/-- A metadata record: a Python dict from string keys to values. -/
abbrev Dict := List (String × MVal)

/-- Dict lookup, as in Python `d.get(k)`. -/
def dget (d : Dict) (k : String) : Option MVal :=
  (d.find? (fun kv => kv.1 = k)).map (fun kv => kv.2)

/-- Python `d.get(k, False)` used in a boolean position: present and truthy. -/
def dtruthy (d : Dict) (k : String) : Bool :=
  match dget d k with
  | some v => v.truthy
  | none => false

/-- Strict string-valued access `d[k]` (for `child['path']`): `none` models the
`KeyError` (or a non-string value, which the subsequent `basename` call could
not digest either). -/
def dgetStr (d : Dict) (k : String) : Option String :=
  match dget d k with
  | some (.vs s) => some s
  | _ => none

/-- Model of `dict(d.items())` in `DropboxClient.metadata`: a freshly built
dict with the same key-value pairs; as a value it equals `d`.  Object identity
of the copy is modelled separately by `dictHeapCopy`. -/
def dictCopy (d : Dict) : Dict := d

/-- A `dropbox.rest.ErrorResponse`: HTTP status plus the stringified body
(`str(e)`). -/
structure ErrorResponse where
  status : Nat
  body : String
deriving DecidableEq

/-- Errors escaping the `DropboxClient` wrapper: the fs error taxonomy, plus
the raw `rest.ErrorResponse` that `file_delete` re-raises via its bare
`raise`, plus Python-level exceptions the code can hit (`NameError` for the
unbound `path` in `file_copy`/`file_move`, `KeyError`/`AttributeError`,
`TypeError` for a miscounted positional call). -/
inductive FsError where
  | resourceNotFound (path : String)
  | resourceInvalid (path : String)
  | parentDirectoryMissing (path : String)
  | destinationExists (path : String)
  | directoryNotEmpty (path : String)
  | remoteConnectionError (opname : String) (path : String) (errno : Nat)
  | rawErrorResponse (status : Nat) (body : String)
  | pyNameError (name : String)
  | pyKeyError
  | pyAttrError
  | pyTypeError
deriving DecidableEq

/-- Items in cache are considered expired after 5 minutes (`CACHE_TTL`). -/
def CACHE_TTL : Int := 300

/-- Max size for spooling to memory before using disk, 5 MiB (`MAX_BUFFER`). -/
def MAX_BUFFER : Nat := 1024 ^ 2 * 5

/-- One path's cached state: its own metadata, the list of child names, and
the timestamp of the last confirmation (`CacheItem.__init__`). -/
structure CacheItem where
  metadata : Option Dict
  children : Option (List String)
  timestamp : Int
deriving DecidableEq

namespace CacheItem

/-- `CacheItem.add_child`: start a singleton list, or append unconditionally. -/
def add_child (it : CacheItem) (name : String) : CacheItem :=
  match it.children with
  | none => { it with children := some [name] }
  | some cs => { it with children := some (cs ++ [name]) }

/-- `CacheItem.del_child`: remove the first occurrence of `name` if present
(`list.index` + `list.pop`; the `ValueError` of a missing name is swallowed). -/
def del_child (it : CacheItem) (name : String) : CacheItem :=
  match it.children with
  | none => it
  | some cs => if name ∈ cs then { it with children := some (cs.erase name) } else it

/-- `CacheItem._get_expired`: true when `timestamp <= now - CACHE_TTL`
(the Python writes `self.timestamp <= time.time() - CACHE_TTL`). -/
def expired (it : CacheItem) (now : Int) : Bool :=
  it.timestamp ≤ now - CACHE_TTL

/-- `CacheItem.renew`: reset the timestamp to the current time. -/
def renew (it : CacheItem) (now : Int) : CacheItem :=
  { it with timestamp := now }

end CacheItem

/-- The cache: a Python dict from path to `CacheItem`, as an association list
with unique keys. -/
abbrev Cache := List (String × CacheItem)

/-- Dict lookup `self.get(path)` / `self[path]`. -/
def clookup : Cache → String → Option CacheItem
  | [], _ => none
  | (k, v) :: t, p => if p = k then some v else clookup t p

/-- Dict assignment `self[path] = item`: replace the binding or append one. -/
def cstore : Cache → String → CacheItem → Cache
  | [], p, it => [(p, it)]
  | (k, v) :: t, p, it => if k = p then (p, it) :: t else (k, v) :: cstore t p it

/-- Dict deletion (the removal part of `UserDict.pop`). -/
def cdel : Cache → String → Cache
  | [], _ => []
  | (k, v) :: t, p => if k = p then t else (k, v) :: cdel t p

namespace DropboxCache

/-- `DropboxCache.set`: store a fresh metadata-only item at `path`, then
append `basename(path)` to the parent item's children if the parent is
cached (`CacheItem.add_child`). -/
def set (σ : Cache) (path : String) (md : Dict) (now : Int) : Cache :=
  let σ1 := cstore σ path ⟨some md, none, now⟩
  let dn := (pathsplit path).1
  let bn := (pathsplit path).2
  match clookup σ1 dn with
  | some item => cstore σ1 dn (item.add_child bn)
  | none => σ1

/-- `DropboxCache.pop`: remove the binding (returning the removed item, or
`none` as the `default`), then drop `basename(path)` from the parent item's
children if the parent is cached (`CacheItem.del_child`). -/
def pop (σ : Cache) (path : String) : Cache × Option CacheItem :=
  let value := clookup σ path
  let σ1 := cdel σ path
  let dn := (pathsplit path).1
  let bn := (pathsplit path).2
  match clookup σ1 dn with
  | some item => (cstore σ1 dn (item.del_child bn), value)
  | none => (σ1, value)

end DropboxCache

/-! ## DropboxClient: the caching wrapper around the raw remote client

Each operation takes the cache, the arguments, the clock, and an oracle
describing what the wrapped `dropbox.client.DropboxClient` call would return
(`Except ErrorResponse α`: a payload, or a raised `rest.ErrorResponse`). -/

/-- Result of the raw `metadata(path, hash=..., list=True)` call: the record
with its `contents` listing split off (the Python pops the `'contents'` key
out of the returned dict). -/
structure ListingResp where
  meta : Dict
  contents : List Dict

namespace DropboxClient

/-- Truthiness of `item.metadata` (a dict or `None`): `None` and the empty
dict are falsy. -/
def truthyMeta : Option Dict → Bool
  | none => false
  | some d => d ≠ []

/-- Truthiness of `item.children` (a list or `None`): `None` and the empty
list are falsy. -/
def truthyChildren : Option (List String) → Bool
  | none => false
  | some cs => cs ≠ []

/-- The non-hit branch of `DropboxClient.metadata`: call the raw client
(without a listing), map 404 to `ResourceNotFoundError`, other statuses to
`RemoteConnectionError`, treat an `is_deleted` record as not found, otherwise
store a fresh metadata-only item and return a copy of the record. -/
def metadataFetch (σ : Cache) (path : String) (now : Int)
    (remote : Except ErrorResponse Dict) :
    (Cache × Except FsError Dict) × Nat :=
  match remote with
  | .error e =>
    if e.status = 404 then ((σ, .error (.resourceNotFound path)), 1)
    else ((σ, .error (.remoteConnectionError "metadata" path e.status)), 1)
  | .ok md =>
    if dtruthy md "is_deleted" then ((σ, .error (.resourceNotFound path)), 1)
    else ((cstore σ path ⟨some md, none, now⟩, .ok (dictCopy md)), 1)

/-- `DropboxClient.metadata`: serve a fresh cached record as a copy with no
remote call, otherwise fetch.  The second component counts raw remote calls. -/
def metadata (σ : Cache) (path : String) (now : Int)
    (remote : Except ErrorResponse Dict) :
    (Cache × Except FsError Dict) × Nat :=
  match clookup σ path with
  | some item =>
    match item.metadata with
    | some md =>
      if item.expired now then metadataFetch σ path now remote
      else ((σ, .ok (dictCopy md)), 0)
    | none => metadataFetch σ path now remote
  | none => metadataFetch σ path now remote

/-- The loop body of `DropboxClient.children`'s update branch: walk the
listing's `contents`, skip deleted members, append each member's basename to
the name accumulator and store a metadata-only cache item under the member's
own path.  A member without a string `'path'` raises `KeyError`, leaving the
cache partially updated. -/
def childLoop (now : Int) : Cache → List String → List Dict →
    Cache × Except FsError (List String)
  | σ, acc, [] => (σ, .ok acc)
  | σ, acc, child :: rest =>
    if dtruthy child "is_deleted" then childLoop now σ acc rest
    else
      match dgetStr child "path" with
      | none => (σ, .error .pyKeyError)
      | some cp => childLoop now (cstore σ cp ⟨some child, none, now⟩) (acc ++ [basename cp]) rest

/-- The update branch of `DropboxClient.children`: issue the raw listing call
with the optional `hash`; on success rebuild the entry (and seed the
children's entries) via `childLoop`; on a 304 with a cached item, renew it
and return its existing children; otherwise raise `RemoteConnectionError`. -/
def childrenUpdate (σ : Cache) (path : String) (now : Int)
    (remote : Option MVal → Except ErrorResponse ListingResp)
    (hash : Option MVal) (item? : Option CacheItem) :
    Cache × Except FsError (Option (List String)) :=
  match remote hash with
  | .ok resp =>
    match childLoop now σ [] resp.contents with
    | (σ1, .error e) => (σ1, .error e)
    | (σ1, .ok children) => (cstore σ1 path ⟨some resp.meta, some children, now⟩, .ok (some children))
  | .error e =>
    match item? with
    | none => (σ, .error (.remoteConnectionError "metadata" path e.status))
    | some item =>
      if e.status ≠ 304 then (σ, .error (.remoteConnectionError "metadata" path e.status))
      else (cstore σ path (item.renew now), .ok item.children)

/-- `DropboxClient.children`: serve a fresh, listed directory entry from
cache; reject a fresh non-directory with `ResourceInvalidError`; otherwise
update, passing the cached record's `hash` when the expired entry had both
metadata and children (`item.metadata['hash']` raises `KeyError` when the
key is missing; `item.metadata.get('is_dir')` on a `None` record raises
`AttributeError`). -/
def children (σ : Cache) (path : String) (now : Int)
    (remote : Option MVal → Except ErrorResponse ListingResp) :
    Cache × Except FsError (Option (List String)) :=
  match clookup σ path with
  | some item =>
    if item.expired now then
      if truthyMeta item.metadata && truthyChildren item.children then
        match dget (item.metadata.getD []) "hash" with
        | some v => childrenUpdate σ path now remote (some v) (some item)
        | none => (σ, .error .pyKeyError)
      else childrenUpdate σ path now remote none (some item)
    else
      match item.metadata with
      | none => (σ, .error .pyAttrError)
      | some md =>
        if !dtruthy md "is_dir" then (σ, .error (.resourceInvalid path))
        else if !truthyChildren item.children then
          childrenUpdate σ path now remote none (some item)
        else (σ, .ok item.children)
  | none => childrenUpdate σ path now remote none none

/-- `DropboxClient.file_create_folder`: map 404 to `ParentDirectoryMissing`,
403 to `DestinationExists`, anything else to `RemoteConnectionError`; on
success add the new directory to the cache via `DropboxCache.set`. -/
def file_create_folder (σ : Cache) (path : String) (now : Int)
    (remote : Except ErrorResponse Dict) : Cache × Except FsError Unit :=
  match remote with
  | .error e =>
    if e.status = 404 then (σ, .error (.parentDirectoryMissing path))
    else if e.status = 403 then (σ, .error (.destinationExists path))
    else (σ, .error (.remoteConnectionError "file_create_folder" path e.status))
  | .ok md => (DropboxCache.set σ path md now, .ok ())

/-- `DropboxClient.file_copy`: map 404/403; in the catch-all branch the
source evaluates `RemoteConnectionError(opname='file_copy', path=path, ...)`
where `path` is not a name bound in `file_copy` — CPython raises
`NameError` there instead.  On success the destination entry is set. -/
def file_copy (σ : Cache) (src dst : String) (now : Int)
    (remote : Except ErrorResponse Dict) : Cache × Except FsError Unit :=
  match remote with
  | .error e =>
    if e.status = 404 then (σ, .error (.resourceNotFound src))
    else if e.status = 403 then (σ, .error (.destinationExists dst))
    else (σ, .error (.pyNameError "path"))
  | .ok md => (DropboxCache.set σ dst md now, .ok ())

/-- `DropboxClient.file_move`: like `file_copy` (including the unbound `path`
`NameError` in the catch-all branch); on success pop the source entry and set
the destination entry. -/
def file_move (σ : Cache) (src dst : String) (now : Int)
    (remote : Except ErrorResponse Dict) : Cache × Except FsError Unit :=
  match remote with
  | .error e =>
    if e.status = 404 then (σ, .error (.resourceNotFound src))
    else if e.status = 403 then (σ, .error (.destinationExists dst))
    else (σ, .error (.pyNameError "path"))
  | .ok md => (DropboxCache.set (DropboxCache.pop σ src).1 dst md now, .ok ())

/-- Substring test used for `'must not be empty' in str(e)`. -/
def strContains (needle hay : List Char) : Bool :=
  match hay with
  | [] => needle.isEmpty
  | _ :: t => (needle = hay.take needle.length) || strContains needle t

/-- `DropboxClient.file_delete`: map 404, and a 400 whose body mentions
`must not be empty`, to fs errors; any other failure hits the bare `raise`,
re-raising the raw `rest.ErrorResponse`.  On success pop the entry. -/
def file_delete (σ : Cache) (path : String)
    (remote : Except ErrorResponse Unit) : Cache × Except FsError Unit :=
  match remote with
  | .error e =>
    if e.status = 404 then (σ, .error (.resourceNotFound path))
    else if e.status = 400 && strContains "must not be empty".toList e.body.toList then
      (σ, .error (.directoryNotEmpty path))
    else (σ, .error (.rawErrorResponse e.status e.body))
  | .ok _ => ((DropboxCache.pop σ path).1, .ok ())

/-- `DropboxClient.put_file`: map any failure to `RemoteConnectionError`; on
success invalidate the parent directory's entry (`self.cache.pop(dirname(path))`). -/
def put_file (σ : Cache) (path : String)
    (remote : Except ErrorResponse Dict) : Cache × Except FsError Unit :=
  match remote with
  | .error e => (σ, .error (.remoteConnectionError "put_file" path e.status))
  | .ok _ => ((DropboxCache.pop σ (dirname path)).1, .ok ())

end DropboxClient

/-! ## Spooled transfers

`SpooledWriter` buffers writes in a `StringIO` until `max_buffer`, then in a
temporary file; `close` uploads and closes the buffer.  `SpooledReader`
downloads the whole file up front and serves reads locally.  Byte streams are
`List Nat`, a file object is its contents plus a cursor, and the backing kind
records whether the bytes live in memory or in a disk temp file. -/

/-- Which storage backs a spooled buffer. -/
inductive Backing where
  | memoryBuffer
  | diskFile
deriving DecidableEq

/-- State of a `SpooledWriter`: buffer contents, cursor (`tell()`), backing
kind, the running `bytes` counter, and whether the buffer was closed. -/
structure WriterState where
  temp : List Nat
  pos : Nat
  backing : Backing
  bytes : Nat
  closed : Bool
deriving DecidableEq

/-- A `SpooledWriter` as constructed: empty `StringIO`, zero counters. -/
def freshWriter : WriterState :=
  { temp := [], pos := 0, backing := .memoryBuffer, bytes := 0, closed := false }

namespace SpooledWriter

/-- `SpooledWriter.write`: if `tell() + len(data) >= max_buffer`, copy the
whole buffer into a fresh disk temp file (leaving its cursor at the end) and
continue there; then write `data` at the cursor and bump the byte counter. -/
def write (w : WriterState) (data : List Nat) (maxBuffer : Nat) : WriterState :=
  let w1 := if w.pos + data.length ≥ maxBuffer
    then { w with backing := .diskFile, pos := w.temp.length }
    else w
  { w1 with
    temp := w1.temp.take w1.pos ++ data ++ w1.temp.drop (w1.pos + data.length)
    pos := w1.pos + data.length
    bytes := w.bytes + data.length }

/-- Observable outcome of `SpooledWriter.close`: the single `put_file` call
(name, the bytes the upload reads from the rewound stream, the `overwrite`
flag), the exception it re-raises if the upload fails, and the final writer
state. -/
structure CloseResult where
  uploads : List (String × List Nat × Bool)
  raised : Option ErrorResponse
  final : WriterState
deriving DecidableEq

/-- `SpooledWriter.close`: flush (a no-op here), seek to the start, call
`put_file(self.name, self, overwrite=True)` — the upload reads the full
buffer — and close the buffer afterwards.  The `self.temp.close()` line is
only reached when `put_file` returns: an upload failure propagates before it. -/
def close (w : WriterState) (name : String)
    (uploadResult : Except ErrorResponse Dict) : CloseResult :=
  let w1 := { w with pos := 0 }
  match uploadResult with
  | .ok _ =>
    { uploads := [(name, w1.temp, true)], raised := none
      final := { w1 with closed := true } }
  | .error e =>
    { uploads := [(name, w1.temp, true)], raised := some e, final := w1 }

end SpooledWriter

/-- The raw `get_file` response: declared `Content-Length` header and the
body stream. -/
structure HTTPResponse where
  contentLength : Int
  body : List Nat
deriving DecidableEq

/-- CPython 2 orders every number below every non-numeric object, so the
source's `r > max_buffer` — which compares the HTTP response object itself,
not `self.bytes`, against the int — is always true. -/
def respGtInt (_r : HTTPResponse) (_n : Int) : Bool := true

/-- State of a `SpooledReader` after construction: number of `get_file`
calls issued, the declared length, the backing choice, the buffered bytes,
and the cursor (rewound to the start). -/
structure ReaderState where
  downloadCalls : Nat
  bytes : Int
  backing : Backing
  temp : List Nat
  pos : Nat
deriving DecidableEq

namespace SpooledReader

/-- `SpooledReader.__init__`: one `get_file` call, read `Content-Length`,
pick the backing by evaluating `r > max_buffer` (see `respGtInt`), copy the
whole body over, and seek back to the start. -/
def construct (r : HTTPResponse) (maxBuffer : Nat) : ReaderState :=
  { downloadCalls := 1
    bytes := r.contentLength
    backing := if respGtInt r (maxBuffer : Int) then .diskFile else .memoryBuffer
    temp := r.body
    pos := 0 }

/-- An unbounded `read()` served from the local buffer: everything from the
cursor on. -/
def readAll (r : ReaderState) : List Nat := r.temp.drop r.pos

end SpooledReader

/-- Round trip of C9: push `chunks` through a fresh `SpooledWriter`, close it
against a remote that stores exactly the bytes the transfer yields, then
download that stored content through a `SpooledReader` and read it all. -/
def uploadRoundTrip (chunks : List (List Nat)) (maxBuffer : Nat) : List Nat :=
  let w := chunks.foldl (fun w data => SpooledWriter.write w data maxBuffer) freshWriter
  let c := SpooledWriter.close w "/f" (.ok [])
  let stored := match c.uploads with
    | (_, bytes, _) :: _ => bytes
    | [] => []
  let r := SpooledReader.construct ⟨(stored.length : Int), stored⟩ maxBuffer
  SpooledReader.readAll r

/-! ## Adapter layer: `DropboxFS.getcontents` and the heap view of the
metadata copy -/

/-- A Python value passed positionally into `DropboxFS.open`: the filesystem
object itself or a string. -/
inductive PyArg where
  | fsObj
  | strArg (s : String)
deriving DecidableEq

/-- What `DropboxFS.open` produces. -/
inductive OpenedFile where
  | reader (path : PyArg)
  | writer (path : PyArg)
deriving DecidableEq

namespace DropboxFS

/-- `DropboxFS.open(self, path, mode="rb", **kwargs)` applied to a list of
positional arguments (after `self`): CPython raises `TypeError` before the
body runs when more than two are supplied; `**kwargs` absorbs no positional
argument.  Otherwise `'r' in mode` picks a `SpooledReader`, anything else a
`SpooledWriter` (and `'r' in m` on a non-string `mode` raises `TypeError`). -/
def openCall (args : List PyArg) : Except FsError OpenedFile :=
  if args.length > 2 then .error .pyTypeError
  else
    let path := args.getD 0 (.strArg "")
    match args.getD 1 (.strArg "rb") with
    | .strArg m => if m.toList.contains 'r' then .ok (.reader path) else .ok (.writer path)
    | _ => .error .pyTypeError

/-- `DropboxFS.getcontents(self, path, mode="rb")` runs
`self.open(self, path, mode).read()`: the inner call passes three positional
arguments (the filesystem object itself first) to a method accepting two. -/
def getcontents (path mode : String) : Except FsError OpenedFile :=
  openCall [.fsObj, .strArg path, .strArg mode]

end DropboxFS

/-- Object-identity model of the cache-hit return
`dict(item.metadata.items())` in `DropboxClient.metadata`: dict objects live
in a heap of cells addressed by index, and the call allocates a fresh cell
holding the same entries as the cached cell.  Returns the new heap and the
fresh cell's address. -/
def dictHeapCopy (cells : List Dict) (src : Nat) : List Dict × Nat :=
  (cells ++ [cells.getD src []], cells.length)

/-! ## Store lemmas -/

theorem clookup_cstore (σ : Cache) (p : String) (it : CacheItem) (q : String) :
    clookup (cstore σ p it) q = if q = p then some it else clookup σ q := by
  induction σ with
  | nil => by_cases hq : q = p <;> simp [cstore, clookup, hq]
  | cons kv t ih =>
    obtain ⟨k, v⟩ := kv
    by_cases hk : k = p
    · subst hk
      by_cases hq : q = k <;> simp [cstore, clookup, hq]
    · by_cases hq : q = k
      · subst hq
        have hqp : ¬ q = p := hk
        simp [cstore, clookup, hk, hqp]
      · simp [cstore, clookup, hk, hq, ih]

theorem clookup_cdel_ne (σ : Cache) (p q : String) (h : q ≠ p) :
    clookup (cdel σ p) q = clookup σ q := by
  induction σ with
  | nil => rfl
  | cons kv t ih =>
    obtain ⟨k, v⟩ := kv
    by_cases hk : k = p
    · subst hk
      simp [cdel, clookup, fun hq : q = k => h hq]
    · by_cases hq : q = k <;> simp [cdel, clookup, hk, hq, ih]

theorem clookup_none_iff (σ : Cache) (q : String) :
    clookup σ q = none ↔ q ∉ σ.map Prod.fst := by
  induction σ with
  | nil => simp [clookup]
  | cons kv t ih =>
    obtain ⟨k, v⟩ := kv
    by_cases hq : q = k <;> simp [clookup, hq, ih]

theorem clookup_cdel_self {σ : Cache} (hnd : (σ.map Prod.fst).Nodup) (p : String) :
    clookup (cdel σ p) p = none := by
  induction σ with
  | nil => rfl
  | cons kv t ih =>
    obtain ⟨k, v⟩ := kv
    simp only [List.map_cons, List.nodup_cons] at hnd
    by_cases hk : k = p
    · subst hk
      simp only [cdel, if_pos rfl]
      exact (clookup_none_iff t k).mpr hnd.1
    · have hpk : ¬ p = k := fun hq => hk hq.symm
      simp [cdel, clookup, hk, hpk, ih hnd.2]

theorem mem_of_clookup {σ : Cache} {p : String} {it : CacheItem}
    (h : clookup σ p = some it) : (p, it) ∈ σ := by
  induction σ with
  | nil => simp [clookup] at h
  | cons kv t ih =>
    obtain ⟨k, v⟩ := kv
    by_cases hp : p = k
    · subst hp
      simp [clookup] at h
      simp [h]
    · simp only [clookup, if_neg hp] at h
      exact List.mem_cons_of_mem _ (ih h)

theorem clookup_of_mem {σ : Cache} (hnd : (σ.map Prod.fst).Nodup) {e : String × CacheItem}
    (h : e ∈ σ) : clookup σ e.1 = some e.2 := by
  induction σ with
  | nil => simp at h
  | cons kv t ih =>
    obtain ⟨k, v⟩ := kv
    simp only [List.map_cons, List.nodup_cons] at hnd
    rcases List.mem_cons.mp h with he | he
    · subst he
      simp [clookup]
    · have h1 : e.1 ≠ k := by
        intro hq
        exact hnd.1 (hq ▸ List.mem_map_of_mem Prod.fst he)
      simp only [clookup, if_neg h1]
      exact ih hnd.2 he

theorem keys_cstore_mem {σ : Cache} {p : String} (it : CacheItem)
    (h : p ∈ σ.map Prod.fst) : (cstore σ p it).map Prod.fst = σ.map Prod.fst := by
  induction σ with
  | nil => simp at h
  | cons kv t ih =>
    obtain ⟨k, v⟩ := kv
    by_cases hk : k = p
    · subst hk; simp [cstore]
    · simp only [List.map_cons] at h
      rcases List.mem_cons.mp h with he | he
      · exact absurd he.symm hk
      · simp [cstore, hk, ih he]

theorem keys_cstore_not_mem {σ : Cache} {p : String} (it : CacheItem)
    (h : p ∉ σ.map Prod.fst) : (cstore σ p it).map Prod.fst = σ.map Prod.fst ++ [p] := by
  induction σ with
  | nil => rfl
  | cons kv t ih =>
    obtain ⟨k, v⟩ := kv
    simp only [List.map_cons, List.mem_cons] at h
    push_neg at h
    have hkp : ¬ k = p := fun he => h.1 he.symm
    simp [cstore, hkp, ih h.2]

theorem nodup_keys_cstore {σ : Cache} (p : String) (it : CacheItem)
    (hnd : (σ.map Prod.fst).Nodup) : ((cstore σ p it).map Prod.fst).Nodup := by
  by_cases h : p ∈ σ.map Prod.fst
  · rw [keys_cstore_mem it h]; exact hnd
  · rw [keys_cstore_not_mem it h]
    simp [List.nodup_append, hnd, h]

theorem keys_cdel (σ : Cache) (p : String) :
    (cdel σ p).map Prod.fst = (σ.map Prod.fst).erase p := by
  induction σ with
  | nil => rfl
  | cons kv t ih =>
    obtain ⟨k, v⟩ := kv
    by_cases hk : k = p
    · subst hk; simp [cdel, List.erase_cons]
    · simp [cdel, List.erase_cons, hk, ih]

theorem nodup_keys_cdel {σ : Cache} (p : String)
    (hnd : (σ.map Prod.fst).Nodup) : ((cdel σ p).map Prod.fst).Nodup := by
  rw [keys_cdel]
  exact hnd.erase p

theorem cstore_self {σ : Cache} {p : String} {it : CacheItem}
    (h : clookup σ p = some it) : cstore σ p it = σ := by
  induction σ with
  | nil => simp [clookup] at h
  | cons kv t ih =>
    obtain ⟨k, v⟩ := kv
    by_cases hp : p = k
    · subst hp
      simp only [clookup, if_pos rfl] at h
      injection h with h
      simp [cstore, h]
    · have hkp : ¬ k = p := fun hk => hp hk.symm
      simp only [clookup, if_neg hp] at h
      simp [cstore, hkp, ih h]

/-! ## Claim C1 (error propagation of the mutating calls) -/

/-- C1: the claim says every unmapped remote failure of `file_copy`,
`file_move` and `file_delete` surfaces as a `RemoteConnectionError` carrying
the operation name, path and status, with no raw transport error escaping.
The code disagrees: at status 500, `file_delete`'s bare `raise` re-raises the
raw `rest.ErrorResponse`, and `file_copy`/`file_move` raise `NameError`
because their `RemoteConnectionError(...)` line references the unbound name
`path`.  This evaluates the three calls at that failing input. -/
theorem file_ops_unmapped_failures_escape_raw :
    DropboxClient.file_delete [] "/docs" (.error ⟨500, "server error"⟩)
      = ([], .error (.rawErrorResponse 500 "server error"))
    ∧ DropboxClient.file_copy [] "/a" "/b" 0 (.error ⟨500, "server error"⟩)
      = ([], .error (.pyNameError "path"))
    ∧ DropboxClient.file_move [] "/a" "/b" 0 (.error ⟨500, "server error"⟩)
      = ([], .error (.pyNameError "path")) :=
  ⟨rfl, rfl, rfl⟩

/-! ## Claim C4 (reader-side transfer) -/

/-- C4: the claim says the reader buffers in memory when the declared content
length is below `MAX_BUFFER` and on disk otherwise.  The code compares the
HTTP response object itself against the threshold (`if r > max_buffer`),
which CPython 2 evaluates to true for every length, so every download is
disk-backed — including the 10-byte one evaluated here, far below the 5 MiB
threshold.  The exactly-one-download-then-rewind part does hold. -/
theorem reader_always_disk_backed :
    (∀ r mb, (SpooledReader.construct r mb).backing = .diskFile
      ∧ (SpooledReader.construct r mb).downloadCalls = 1
      ∧ (SpooledReader.construct r mb).temp = r.body
      ∧ (SpooledReader.construct r mb).pos = 0)
    ∧ (10 : Int) < (MAX_BUFFER : Int)
    ∧ SpooledReader.construct ⟨10, [1, 2, 3]⟩ MAX_BUFFER
      = ⟨1, 10, .diskFile, [1, 2, 3], 0⟩ :=
  ⟨fun _ _ => ⟨rfl, rfl, rfl, rfl⟩, by decide, rfl⟩

/-! ## Claim C5 (writer-side close) -/

/-- C5 counterexample: the claim says `close` releases the backing storage
regardless of whether the upload succeeds or fails; on a failing upload the
buffer is not closed (`self.temp.close()` is only reached when `put_file`
returns normally). -/
theorem writer_close_not_released_cex :
    (SpooledWriter.close ⟨[1, 2], 2, .memoryBuffer, 2, false⟩ "/f"
      (.error ⟨500, "server error"⟩)).final.closed = false := rfl

/-- C5 as amended: `close` performs exactly one upload call with
`overwrite=true`, passing the transfer rewound to the start (cursor 0, full
buffer contents) as the byte source; on success the buffer is closed, while
a failing upload re-raises and leaves the buffer open. -/
theorem writer_close_behavior (w : WriterState) (name : String) (md : Dict)
    (e : ErrorResponse) :
    (SpooledWriter.close w name (.ok md)).uploads = [(name, w.temp, true)]
    ∧ (SpooledWriter.close w name (.ok md)).final.pos = 0
    ∧ (SpooledWriter.close w name (.ok md)).final.closed = true
    ∧ (SpooledWriter.close w name (.ok md)).raised = none
    ∧ (SpooledWriter.close w name (.error e)).uploads = [(name, w.temp, true)]
    ∧ (SpooledWriter.close w name (.error e)).final.pos = 0
    ∧ (SpooledWriter.close w name (.error e)).raised = some e
    ∧ (SpooledWriter.close w name (.error e)).final.closed = w.closed :=
  ⟨rfl, rfl, rfl, rfl, rfl, rfl, rfl, rfl⟩

/-! ## Claim C7 (expiry predicate) -/

/-- C7 counterexample: the claim says `expired` holds iff
`now - timestamp > CACHE_TTL`, so an entry of age exactly `CACHE_TTL` would
not be expired; the code tests `timestamp <= now - CACHE_TTL`, which is true
at age exactly 300. -/
theorem expired_boundary_cex :
    ¬ ((CacheItem.expired ⟨none, none, 0⟩ 300 = true) ↔ ((300 : Int) - 0 > CACHE_TTL)) := by
  decide

/-- C7 as amended: `expired` holds iff `now - timestamp ≥ CACHE_TTL`
(an entry of age exactly the TTL is already expired). -/
theorem expired_iff_age_ge_ttl (it : CacheItem) (now : Int) :
    CacheItem.expired it now = true ↔ now - it.timestamp ≥ CACHE_TTL := by
  simp only [CacheItem.expired, CACHE_TTL, decide_eq_true_eq]
  omega

/-! ## Claim C9 (upload round trip) -/

theorem SpooledWriter.write_append {w : WriterState} (data : List Nat) (mb : Nat)
    (h : w.pos = w.temp.length) :
    (SpooledWriter.write w data mb).temp = w.temp ++ data
    ∧ (SpooledWriter.write w data mb).pos = (SpooledWriter.write w data mb).temp.length := by
  unfold SpooledWriter.write
  rw [h]
  by_cases hc : w.temp.length + data.length ≥ mb
  · rw [if_pos hc]
    dsimp only
    refine ⟨?_, ?_⟩
    · simp
    · simp
  · rw [if_neg hc]
    dsimp only
    rw [h]
    refine ⟨?_, ?_⟩
    · simp
    · simp

theorem SpooledWriter.foldl_write (mb : Nat) (chunks : List (List Nat)) :
    ∀ w : WriterState, w.pos = w.temp.length →
    (chunks.foldl (fun w data => SpooledWriter.write w data mb) w).temp = w.temp ++ chunks.flatten
    ∧ (chunks.foldl (fun w data => SpooledWriter.write w data mb) w).pos
      = (chunks.foldl (fun w data => SpooledWriter.write w data mb) w).temp.length := by
  induction chunks with
  | nil => intro w h; simp [h]
  | cons c rest ih =>
    intro w h
    obtain ⟨h1, h2⟩ := SpooledWriter.write_append c mb h
    have := ih (SpooledWriter.write w c mb) h2
    simp only [List.foldl_cons]
    refine ⟨?_, this.2⟩
    rw [this.1, h1, List.flatten_cons, List.append_assoc]

theorem SpooledWriter.write_fresh_backing (data : List Nat) (mb : Nat) :
    (SpooledWriter.write freshWriter data mb).backing
      = if data.length ≥ mb then Backing.diskFile else Backing.memoryBuffer := by
  dsimp only [SpooledWriter.write, freshWriter]
  by_cases hc : 0 + data.length ≥ mb
  · rw [if_pos hc, if_pos (by omega : data.length ≥ mb)]
  · rw [if_neg hc, if_neg (by omega : ¬ data.length ≥ mb)]

/-- C9: writing any sequence of byte chunks through the writer-side transfer
and downloading what the close-time upload stored through the reader-side
transfer returns exactly the original bytes; a single write one byte short
of the threshold stays in the memory buffer, and one a byte past it spools
to disk. -/
theorem upload_roundtrip_thm :
    (∀ chunks mb, uploadRoundTrip chunks mb = chunks.flatten)
    ∧ (∀ (data : List Nat) (mb : Nat), 1 ≤ mb → data.length = mb - 1 →
        (SpooledWriter.write freshWriter data mb).backing = .memoryBuffer)
    ∧ (∀ (data : List Nat) (mb : Nat), data.length = mb + 1 →
        (SpooledWriter.write freshWriter data mb).backing = .diskFile) := by
  refine ⟨?_, ?_, ?_⟩
  · intro chunks mb
    obtain ⟨h1, _⟩ := SpooledWriter.foldl_write mb chunks freshWriter rfl
    unfold uploadRoundTrip
    simp only [SpooledWriter.close, SpooledReader.construct, SpooledReader.readAll]
    rw [h1]
    simp [freshWriter]
  · intro data mb h1 h2
    rw [SpooledWriter.write_fresh_backing, if_neg (by omega : ¬ data.length ≥ mb)]
  · intro data mb h2
    rw [SpooledWriter.write_fresh_backing, if_pos (by omega : data.length ≥ mb)]

/-- C9 witness: a concrete round trip (chunks totalling three bytes through a
threshold of four), plus the two boundary writes at threshold minus and plus
one. -/
theorem upload_roundtrip_witness :
    uploadRoundTrip [[1, 2], [3]] 4 = ([[1, 2], [3]] : List (List Nat)).flatten
    ∧ (SpooledWriter.write freshWriter [0, 0, 0] 4).backing = .memoryBuffer
    ∧ (SpooledWriter.write freshWriter [0, 0, 0, 0, 0] 4).backing = .diskFile :=
  ⟨upload_roundtrip_thm.1 [[1, 2], [3]] 4,
   upload_roundtrip_thm.2.1 [0, 0, 0] 4 (by decide) (by decide),
   upload_roundtrip_thm.2.2 [0, 0, 0, 0, 0] 4 (by decide)⟩

/-! ## Claim C10 (`getcontents`) -/

/-- C10: every `getcontents` call invokes `self.open(self, path, mode)` —
one positional argument more than `open` accepts, with the filesystem object
itself in path position — so CPython raises `TypeError` and no invocation
ever returns file contents. -/
theorem getcontents_always_errors (path mode : String) :
    DropboxFS.getcontents path mode = .error .pyTypeError := rfl

/-! ## Well-formed cache states

`WF` is the inductive strengthening used to settle C3 and C6: unique,
normalized-absolute keys, and every cached children sequence is duplicate-free
with each listed name separator-free and backed by an entry at `P/name`.
`Inv` is the spec's stated invariant (the entry-backing part alone). -/

/-- Children part of well-formedness for one entry (see `WF`). -/
def childOK (σ : Cache) (p : String) : Option (List String) → Prop
  | none => True
  | some cs => cs.Nodup ∧ ∀ n ∈ cs, noSlashS n = true ∧ (clookup σ (joinp p n)).isSome = true

instance instDecidableChildOK (σ : Cache) (p : String) :
    (oc : Option (List String)) → Decidable (childOK σ p oc)
  | none => isTrue trivial
  | some cs => by unfold childOK; infer_instance

/-- Well-formedness of one entry (see `WF`). -/
def entryOK (σ : Cache) (p : String) (it : CacheItem) : Prop :=
  goodAbs p = true ∧ childOK σ p it.children

instance instDecidableEntryOK (σ : Cache) (p : String) (it : CacheItem) :
    Decidable (entryOK σ p it) := by
  unfold entryOK
  infer_instance

/-- Well-formed cache state. -/
def WF (σ : Cache) : Prop :=
  (σ.map Prod.fst).Nodup ∧ ∀ e ∈ σ, entryOK σ e.1 e.2

instance instDecidableWF (σ : Cache) : Decidable (WF σ) := by
  unfold WF
  infer_instance

/-- The spec's invariant for one entry: every listed child name has an entry
at `P/name`. -/
def namesHaveEntries (σ : Cache) (p : String) : Option (List String) → Prop
  | none => True
  | some cs => ∀ n ∈ cs, (clookup σ (joinp p n)).isSome = true

instance instDecidableNamesHaveEntries (σ : Cache) (p : String) :
    (oc : Option (List String)) → Decidable (namesHaveEntries σ p oc)
  | none => isTrue trivial
  | some cs => by unfold namesHaveEntries; infer_instance

/-- The spec's invariant: an entry for path `P` with `children` present
implies every name in `children` has a corresponding entry at `P/name`. -/
def Inv (σ : Cache) : Prop := ∀ e ∈ σ, namesHaveEntries σ e.1 e.2.children

instance instDecidableInv (σ : Cache) : Decidable (Inv σ) := by
  unfold Inv
  infer_instance

theorem WF_inv {σ : Cache} (h : WF σ) : Inv σ := by
  intro e he
  have := (h.2 e he).2
  cases hc : e.2.children with
  | none => exact trivial
  | some cs =>
    rw [hc] at this
    intro n hn
    exact (this.2 n hn).2

theorem WF.entry {σ : Cache} (h : WF σ) {p : String} {it : CacheItem}
    (hl : clookup σ p = some it) : entryOK σ p it :=
  h.2 (p, it) (mem_of_clookup hl)

theorem isSome_clookup_cstore (σ : Cache) (p : String) (it : CacheItem) (q : String)
    (h : (clookup σ q).isSome = true) : (clookup (cstore σ p it) q).isSome = true := by
  rw [clookup_cstore]
  by_cases hq : q = p <;> simp [hq, h]

theorem childOK_mono {σ σ' : Cache} {p : String}
    (hm : ∀ q, (clookup σ q).isSome = true → (clookup σ' q).isSome = true) :
    ∀ {oc : Option (List String)}, childOK σ p oc → childOK σ' p oc
  | none, _ => trivial
  | some cs, h => ⟨h.1, fun n hn => ⟨(h.2 n hn).1, hm _ (h.2 n hn).2⟩⟩

/-- Storing an entry with a well-formed key and a children field that is
well-formed with respect to the pre-store state preserves `WF`. -/
theorem WF_cstore_keep {σ : Cache} (h : WF σ) {p : String} (hg : goodAbs p = true)
    (it : CacheItem) (hch : childOK σ p it.children) : WF (cstore σ p it) := by
  have hnd' : ((cstore σ p it).map Prod.fst).Nodup := nodup_keys_cstore p it h.1
  refine ⟨hnd', ?_⟩
  intro e he
  have hle := clookup_of_mem hnd' he
  rw [clookup_cstore] at hle
  by_cases hq : e.1 = p
  · rw [if_pos hq] at hle
    injection hle with hle
    refine ⟨hq ▸ hg, ?_⟩
    rw [← hle, hq]
    exact childOK_mono (fun q hq2 => isSome_clookup_cstore σ p it q hq2) hch
  · rw [if_neg hq] at hle
    have hent := h.2 e (mem_of_clookup hle)
    exact ⟨hent.1, childOK_mono (fun q hq2 => isSome_clookup_cstore σ p it q hq2) hent.2⟩

/-- Uniqueness of the parent/name decomposition: a join of a normalized
absolute directory and a separator-free name splits back into exactly that
pair. -/
theorem joinp_eq_path {q n p : String} (hq : goodAbs q = true) (hn : noSlashS n = true)
    (he : joinp q n = p) : pathsplit p = (q, n) := by
  rw [← he]
  exact pathsplit_joinp (goodAbs_startsSlash hq) hn

theorem del_child_children {it : CacheItem} {cs : List String} (b : String)
    (hcs : it.children = some cs) : (it.del_child b).children = some (cs.erase b) := by
  unfold CacheItem.del_child
  rw [hcs]
  dsimp only
  by_cases hb : b ∈ cs
  · rw [if_pos hb]
  · rw [if_neg hb, List.erase_of_not_mem hb]
    exact hcs

theorem cdel_of_not_mem {σ : Cache} {p : String} (h : clookup σ p = none) :
    cdel σ p = σ := by
  induction σ with
  | nil => rfl
  | cons kv t ih =>
    obtain ⟨k, v⟩ := kv
    by_cases hp : p = k
    · subst hp
      simp [clookup] at h
    · have hkp : ¬ k = p := fun hk => hp hk.symm
      simp only [clookup, if_neg hp] at h
      simp [cdel, hkp, ih h]

/-- Condition under which `DropboxCache.set` cannot create a duplicate child
name: the basename is not already listed in the parent's cached children. -/
def FreshFor (σ : Cache) (p : String) : Bool :=
  match clookup σ (pathsplit p).1 with
  | none => true
  | some it =>
    match it.children with
    | none => true
    | some cs => decide ((pathsplit p).2 ∉ cs)

/-- `DropboxCache.set` preserves well-formedness when the path is normalized
absolute and its basename is not already listed by the parent. -/
theorem WF_set {σ : Cache} (h : WF σ) {p : String} (hg : goodAbs p = true)
    (hf : FreshFor σ p = true) (md : Dict) (now : Int) :
    WF (DropboxCache.set σ p md now) := by
  obtain ⟨hjoin, hbs⟩ := joinp_pathsplit hg
  rcases hps : pathsplit p with ⟨d, b⟩
  rw [hps] at hjoin hbs
  have hσ1 : WF (cstore σ p ⟨some md, none, now⟩) :=
    WF_cstore_keep h hg _ trivial
  unfold DropboxCache.set
  rw [hps]
  dsimp only
  cases hd : clookup (cstore σ p ⟨some md, none, now⟩) d with
  | none => exact hσ1
  | some item =>
    have hpSome : (clookup (cstore σ p ⟨some md, none, now⟩) p).isSome = true := by
      rw [clookup_cstore, if_pos rfl]
      rfl
    apply WF_cstore_keep hσ1 (hσ1.entry hd).1
    cases hch : item.children with
    | none =>
      rw [show (item.add_child b).children = some [b] by
        unfold CacheItem.add_child; rw [hch]]
      refine ⟨List.nodup_singleton b, ?_⟩
      intro n hn
      rw [List.mem_singleton] at hn
      subst hn
      exact ⟨hbs, hjoin ▸ hpSome⟩
    | some cs =>
      have hdp : d ≠ p := by
        intro hdp
        rw [hdp, clookup_cstore, if_pos rfl] at hd
        injection hd with hd
        rw [← hd] at hch
        simp at hch
      have hdσ : clookup σ d = some item := by
        rw [clookup_cstore, if_neg hdp] at hd
        exact hd
      have hnotmem : b ∉ cs := by
        unfold FreshFor at hf
        rw [hps] at hf
        dsimp only at hf
        rw [hdσ] at hf
        dsimp only at hf
        rw [hch] at hf
        dsimp only at hf
        exact of_decide_eq_true hf
      have hcOK := (hσ1.entry hd).2
      rw [hch] at hcOK
      rw [show (item.add_child b).children = some (cs ++ [b]) by
        unfold CacheItem.add_child; rw [hch]]
      refine ⟨?_, ?_⟩
      · simp [List.nodup_append, hcOK.1, hnotmem]
      · intro n hn
        rcases List.mem_append.mp hn with hn | hn
        · exact hcOK.2 n hn
        · rw [List.mem_singleton] at hn
          subst hn
          exact ⟨hbs, hjoin ▸ hpSome⟩

/-- `DropboxCache.pop` preserves well-formedness unconditionally. -/
theorem WF_pop {σ : Cache} (h : WF σ) (p : String) :
    WF ((DropboxCache.pop σ p).1) := by
  rcases hps : pathsplit p with ⟨d, b⟩
  unfold DropboxCache.pop
  rw [hps]
  dsimp only
  have hnd1 : ((cdel σ p).map Prod.fst).Nodup := nodup_keys_cdel p h.1
  -- an entry can disappear only at the popped key, and only its parent's
  -- listing could have referenced it
  have hkey : ∀ q n, goodAbs q = true → noSlashS n = true → joinp q n = p →
      q = d ∧ n = b := by
    intro q n hq hn he
    have h0 : (q, n) = (d, b) := by
      rw [← joinp_eq_path hq hn he, hps]
    injection h0 with h1 h2
    exact ⟨h1, h2⟩
  cases hd : clookup (cdel σ p) d with
  | none =>
    refine ⟨hnd1, ?_⟩
    intro e he
    have hle := clookup_of_mem hnd1 he
    have hep : e.1 ≠ p := by
      intro hq
      rw [hq, clookup_cdel_self h.1] at hle
      cases hle
    rw [clookup_cdel_ne σ p e.1 hep] at hle
    have hent := h.2 e (mem_of_clookup hle)
    refine ⟨hent.1, ?_⟩
    cases hch : e.2.children with
    | none => exact trivial
    | some cs =>
      have hcOK := hent.2
      rw [hch] at hcOK
      refine ⟨hcOK.1, ?_⟩
      intro n hn
      refine ⟨(hcOK.2 n hn).1, ?_⟩
      have hne : joinp e.1 n ≠ p := by
        intro hjp
        obtain ⟨h1, _⟩ := hkey e.1 n hent.1 (hcOK.2 n hn).1 hjp
        have hcd : clookup (cdel σ p) e.1 = some e.2 := by
          rw [clookup_cdel_ne σ p e.1 hep]
          exact hle
        rw [h1, hd] at hcd
        cases hcd
      rw [clookup_cdel_ne σ p _ hne]
      exact (hcOK.2 n hn).2
  | some item =>
    have hdp : d ≠ p := by
      intro hdp
      rw [hdp, clookup_cdel_self h.1] at hd
      cases hd
    have hdσ : clookup σ d = some item := by
      rw [clookup_cdel_ne σ p d hdp] at hd
      exact hd
    have hentd := h.entry hdσ
    have hnd2 := nodup_keys_cstore d (item.del_child b) hnd1
    refine ⟨hnd2, ?_⟩
    intro e he
    have hle := clookup_of_mem hnd2 he
    rw [clookup_cstore] at hle
    by_cases hq : e.1 = d
    · rw [if_pos hq] at hle
      injection hle with hle
      refine ⟨hq ▸ hentd.1, ?_⟩
      rw [← hle]
      cases hch : item.children with
      | none =>
        rw [show (item.del_child b).children = none by
          unfold CacheItem.del_child; rw [hch]; exact hch]
        exact trivial
      | some cs =>
        rw [del_child_children b hch, hq]
        have hcOK := hentd.2
        rw [hch] at hcOK
        refine ⟨hcOK.1.erase b, ?_⟩
        intro n hn
        have hncs : n ∈ cs := List.mem_of_mem_erase hn
        refine ⟨(hcOK.2 n hncs).1, ?_⟩
        have hnb : n ≠ b := (List.Nodup.mem_erase_iff hcOK.1).mp hn |>.1
        have hne : joinp d n ≠ p := by
          intro hjp
          exact hnb (hkey d n hentd.1 (hcOK.2 n hncs).1 hjp).2
        apply isSome_clookup_cstore
        rw [clookup_cdel_ne σ p _ hne]
        exact (hcOK.2 n hncs).2
    · rw [if_neg hq] at hle
      have hep : e.1 ≠ p := by
        intro hq2
        rw [hq2, clookup_cdel_self h.1] at hle
        cases hle
      rw [clookup_cdel_ne σ p e.1 hep] at hle
      have hent := h.2 e (mem_of_clookup hle)
      refine ⟨hent.1, ?_⟩
      cases hch : e.2.children with
      | none => exact trivial
      | some cs =>
        have hcOK := hent.2
        rw [hch] at hcOK
        refine ⟨hcOK.1, ?_⟩
        intro n hn
        refine ⟨(hcOK.2 n hn).1, ?_⟩
        have hne : joinp e.1 n ≠ p := by
          intro hjp
          exact hq (hkey e.1 n hent.1 (hcOK.2 n hn).1 hjp).1
        apply isSome_clookup_cstore
        rw [clookup_cdel_ne σ p _ hne]
        exact (hcOK.2 n hn).2

/-! ## Preservation of well-formedness by the client operations -/

theorem WF_metadataFetch {σ : Cache} (h : WF σ) {path : String} (hg : goodAbs path = true)
    (now : Int) (remote : Except ErrorResponse Dict) :
    WF (DropboxClient.metadataFetch σ path now remote).1.1 := by
  unfold DropboxClient.metadataFetch
  cases remote with
  | error e =>
    dsimp only
    by_cases h4 : e.status = 404
    · rw [if_pos h4]; exact h
    · rw [if_neg h4]; exact h
  | ok md =>
    dsimp only
    by_cases hdel : dtruthy md "is_deleted" = true
    · rw [if_pos hdel]; exact h
    · rw [if_neg hdel]
      exact WF_cstore_keep h hg _ trivial

theorem WF_metadata {σ : Cache} (h : WF σ) {path : String} (hg : goodAbs path = true)
    (now : Int) (remote : Except ErrorResponse Dict) :
    WF (DropboxClient.metadata σ path now remote).1.1 := by
  unfold DropboxClient.metadata
  cases hit : clookup σ path with
  | none => exact WF_metadataFetch h hg now remote
  | some item =>
    dsimp only
    cases hmd : item.metadata with
    | none => exact WF_metadataFetch h hg now remote
    | some md =>
      dsimp only
      by_cases hexp : item.expired now = true
      · rw [if_pos hexp]; exact WF_metadataFetch h hg now remote
      · rw [if_neg hexp]; exact h

theorem WF_childLoop {path : String} (hg : goodAbs path = true) (now : Int) :
    ∀ (contents : List Dict) (σ : Cache) (acc : List String),
    WF σ →
    (∀ c ∈ contents, ∃ b, dget c "path" = some (.vs (joinp path b))
        ∧ noSlashS b = true ∧ b ≠ "") →
    (contents.map (fun c => dget c "path")).Nodup →
    WF (DropboxClient.childLoop now σ acc contents).1
    ∧ (∀ q, (clookup σ q).isSome = true →
        (clookup (DropboxClient.childLoop now σ acc contents).1 q).isSome = true)
    ∧ ∀ names, (DropboxClient.childLoop now σ acc contents).2 = .ok names →
        ∃ extra, names = acc ++ extra ∧ extra.Nodup
          ∧ ∀ n ∈ extra, noSlashS n = true
              ∧ (clookup (DropboxClient.childLoop now σ acc contents).1 (joinp path n)).isSome
                  = true
              ∧ ∃ c ∈ contents, dget c "path" = some (.vs (joinp path n)) := by
  intro contents
  induction contents with
  | nil =>
    intro σ acc hWF _ _
    refine ⟨hWF, fun q hq => hq, ?_⟩
    intro names hnames
    simp only [DropboxClient.childLoop] at hnames
    injection hnames with hnames
    exact ⟨[], by simp [← hnames], List.nodup_nil, by simp⟩
  | cons c rest ih =>
    intro σ acc hWF hm hnd
    obtain ⟨b, hpathc, hnsb, hneb⟩ := hm c (List.mem_cons_self c rest)
    have hmrest : ∀ c' ∈ rest, ∃ b, dget c' "path" = some (.vs (joinp path b))
        ∧ noSlashS b = true ∧ b ≠ "" :=
      fun c' hc' => hm c' (List.mem_cons_of_mem _ hc')
    rw [List.map_cons, List.nodup_cons] at hnd
    obtain ⟨hnotin, hndrest⟩ := hnd
    simp only [DropboxClient.childLoop]
    by_cases hdel : dtruthy c "is_deleted" = true
    · rw [if_pos hdel]
      obtain ⟨hW, htr, hnm⟩ := ih σ acc hWF hmrest hndrest
      refine ⟨hW, htr, ?_⟩
      intro names hn
      obtain ⟨extra, heq, hnd2, hprop⟩ := hnm names hn
      refine ⟨extra, heq, hnd2, ?_⟩
      intro n hn'
      obtain ⟨h1, h2, c', hc', hp⟩ := hprop n hn'
      exact ⟨h1, h2, c', List.mem_cons_of_mem _ hc', hp⟩
    · rw [if_neg hdel]
      have hgets : dgetStr c "path" = some (joinp path b) := by
        unfold dgetStr
        rw [hpathc]
      rw [hgets]
      dsimp only
      have hgood : goodAbs (joinp path b) = true := goodAbs_joinp hg hnsb hneb
      have hbase : basename (joinp path b) = b := by
        unfold basename
        rw [pathsplit_joinp (goodAbs_startsSlash hg) hnsb]
      rw [hbase]
      have hWF' : WF (cstore σ (joinp path b) ⟨some c, none, now⟩) :=
        WF_cstore_keep hWF hgood _ trivial
      obtain ⟨hW, htr, hnm⟩ := ih (cstore σ (joinp path b) ⟨some c, none, now⟩)
        (acc ++ [b]) hWF' hmrest hndrest
      refine ⟨hW, ?_, ?_⟩
      · intro q hq
        exact htr q (isSome_clookup_cstore _ _ _ _ hq)
      · intro names hn
        obtain ⟨extra, heq, hnd2, hprop⟩ := hnm names hn
        refine ⟨b :: extra, by simp [heq], ?_, ?_⟩
        · rw [List.nodup_cons]
          refine ⟨?_, hnd2⟩
          intro hbe
          obtain ⟨_, _, c', hc', hp⟩ := hprop b hbe
          apply hnotin
          have : dget c' "path" ∈ rest.map (fun c => dget c "path") :=
            List.mem_map_of_mem (fun c => dget c "path") hc'
          rw [hp, ← hpathc] at this
          exact this
        · intro n hn'
          rcases List.mem_cons.mp hn' with hn' | hn'
          · subst hn'
            refine ⟨hnsb, ?_, c, List.mem_cons_self c rest, hpathc⟩
            apply htr
            rw [clookup_cstore, if_pos rfl]
            rfl
          · obtain ⟨h1, h2, c', hc', hp⟩ := hprop n hn'
            exact ⟨h1, h2, c', List.mem_cons_of_mem _ hc', hp⟩

/-- Well-formedness of a raw listing response: every member carries a path
joining the listed directory with a nonempty separator-free basename, and the
member paths are pairwise distinct (as Dropbox listings are). -/
def ListingWF (path : String) (resp : ListingResp) : Prop :=
  (∀ c ∈ resp.contents, ∃ b, dget c "path" = some (.vs (joinp path b))
      ∧ noSlashS b = true ∧ b ≠ "")
  ∧ (resp.contents.map (fun c => dget c "path")).Nodup

theorem WF_childrenUpdate {σ : Cache} (h : WF σ) {path : String} (hg : goodAbs path = true)
    (now : Int) (remote : Option MVal → Except ErrorResponse ListingResp)
    (hash : Option MVal) (item? : Option CacheItem)
    (hr : ∀ resp, remote hash = .ok resp → ListingWF path resp)
    (hitem : ∀ it, item? = some it → clookup σ path = some it) :
    WF (DropboxClient.childrenUpdate σ path now remote hash item?).1 := by
  unfold DropboxClient.childrenUpdate
  cases hrem : remote hash with
  | ok resp =>
    obtain ⟨hm, hnd⟩ := hr resp hrem
    obtain ⟨hW, htr, hnm⟩ := WF_childLoop hg now resp.contents σ [] h hm hnd
    dsimp only
    cases hlr : DropboxClient.childLoop now σ [] resp.contents with
    | mk σ1 res =>
      rw [hlr] at hW htr hnm
      cases res with
      | error e => exact hW
      | ok children =>
        dsimp only
        obtain ⟨extra, heq, hnd2, hprop⟩ := hnm children rfl
        rw [List.nil_append] at heq
        apply WF_cstore_keep hW hg
        show childOK σ1 path (some children)
        rw [heq]
        refine ⟨hnd2, ?_⟩
        intro n hn
        exact ⟨(hprop n hn).1, (hprop n hn).2.1⟩
  | error e =>
    dsimp only
    cases item? with
    | none => exact h
    | some item =>
      dsimp only
      by_cases h304 : e.status ≠ 304
      · rw [if_pos h304]; exact h
      · rw [if_neg h304]
        have hit := hitem item rfl
        have hent := h.entry hit
        apply WF_cstore_keep h hent.1
        show childOK σ path (item.renew now).children
        rw [show (item.renew now).children = item.children from rfl]
        exact hent.2

theorem WF_children {σ : Cache} (h : WF σ) {path : String} (hg : goodAbs path = true)
    (now : Int) (remote : Option MVal → Except ErrorResponse ListingResp)
    (hr : ∀ hsh resp, remote hsh = .ok resp → ListingWF path resp) :
    WF (DropboxClient.children σ path now remote).1 := by
  unfold DropboxClient.children
  cases hit : clookup σ path with
  | none =>
    exact WF_childrenUpdate h hg now remote none none (hr none)
      (fun it h0 => Option.noConfusion h0)
  | some item =>
    dsimp only
    have hitem : ∀ it0, some item = some it0 → clookup σ path = some it0 := by
      intro it0 h0
      injection h0 with h0
      rw [← h0]
      exact hit
    by_cases hexp : item.expired now = true
    · rw [if_pos hexp]
      by_cases hmc : (DropboxClient.truthyMeta item.metadata
          && DropboxClient.truthyChildren item.children) = true
      · rw [if_pos hmc]
        cases hh : dget (item.metadata.getD []) "hash" with
        | some v =>
          exact WF_childrenUpdate h hg now remote (some v) (some item) (hr (some v)) hitem
        | none => exact h
      · rw [if_neg hmc]
        exact WF_childrenUpdate h hg now remote none (some item) (hr none) hitem
    · rw [if_neg hexp]
      cases hmd : item.metadata with
      | none => exact h
      | some md =>
        dsimp only
        by_cases hdir : (!dtruthy md "is_dir") = true
        · rw [if_pos hdir]; exact h
        · rw [if_neg hdir]
          by_cases hchl : (!DropboxClient.truthyChildren item.children) = true
          · rw [if_pos hchl]
            exact WF_childrenUpdate h hg now remote none (some item) (hr none) hitem
          · rw [if_neg hchl]; exact h

theorem WF_file_create_folder {σ : Cache} (h : WF σ) {path : String}
    (hg : goodAbs path = true) (hf : FreshFor σ path = true) (now : Int)
    (remote : Except ErrorResponse Dict) :
    WF (DropboxClient.file_create_folder σ path now remote).1 := by
  unfold DropboxClient.file_create_folder
  cases remote with
  | error e =>
    dsimp only
    by_cases h4 : e.status = 404
    · rw [if_pos h4]; exact h
    · rw [if_neg h4]
      by_cases h3 : e.status = 403
      · rw [if_pos h3]; exact h
      · rw [if_neg h3]; exact h
  | ok md => exact WF_set h hg hf md now

theorem WF_file_copy {σ : Cache} (h : WF σ) {src dst : String}
    (hgd : goodAbs dst = true) (hf : FreshFor σ dst = true) (now : Int)
    (remote : Except ErrorResponse Dict) :
    WF (DropboxClient.file_copy σ src dst now remote).1 := by
  unfold DropboxClient.file_copy
  cases remote with
  | error e =>
    dsimp only
    by_cases h4 : e.status = 404
    · rw [if_pos h4]; exact h
    · rw [if_neg h4]
      by_cases h3 : e.status = 403
      · rw [if_pos h3]; exact h
      · rw [if_neg h3]; exact h
  | ok md => exact WF_set h hgd hf md now

theorem WF_file_move {σ : Cache} (h : WF σ) {src dst : String}
    (hgd : goodAbs dst = true) (hf : FreshFor (DropboxCache.pop σ src).1 dst = true)
    (now : Int) (remote : Except ErrorResponse Dict) :
    WF (DropboxClient.file_move σ src dst now remote).1 := by
  unfold DropboxClient.file_move
  cases remote with
  | error e =>
    dsimp only
    by_cases h4 : e.status = 404
    · rw [if_pos h4]; exact h
    · rw [if_neg h4]
      by_cases h3 : e.status = 403
      · rw [if_pos h3]; exact h
      · rw [if_neg h3]; exact h
  | ok md => exact WF_set (WF_pop h src) hgd hf md now

theorem WF_file_delete {σ : Cache} (h : WF σ) (path : String)
    (remote : Except ErrorResponse Unit) :
    WF (DropboxClient.file_delete σ path remote).1 := by
  unfold DropboxClient.file_delete
  cases remote with
  | error e =>
    dsimp only
    by_cases h4 : e.status = 404
    · rw [if_pos h4]; exact h
    · rw [if_neg h4]
      by_cases hb : (e.status = 400 && DropboxClient.strContains
          "must not be empty".toList e.body.toList) = true
      · rw [if_pos hb]; exact h
      · rw [if_neg hb]; exact h
  | ok _ => exact WF_pop h path

theorem WF_put_file {σ : Cache} (h : WF σ) (path : String)
    (remote : Except ErrorResponse Dict) :
    WF (DropboxClient.put_file σ path remote).1 := by
  unfold DropboxClient.put_file
  cases remote with
  | error e => exact h
  | ok _ => exact WF_pop h (dirname path)

/-! ## Reachable cache states

`Step` is one cache-affecting operation of the claims' list (`metadata`,
`children`, `set`, `pop`, and the mutating calls' cache updates), invoked on
a normalized absolute path as the adapter guarantees, with an arbitrary
remote oracle.  `StepOK` further requires the remote's listings to be
well-formed and `set` (directly or inside `create_folder`/`copy`/`move`) not
to target a path already listed in its parent's cached children. -/

inductive Step : Cache → Cache → Prop where
  | metadata (σ0 : Cache) (path : String) (now : Int) (remote : Except ErrorResponse Dict)
      (hg : goodAbs path = true) :
      Step σ0 (DropboxClient.metadata σ0 path now remote).1.1
  | children (σ0 : Cache) (path : String) (now : Int)
      (remote : Option MVal → Except ErrorResponse ListingResp)
      (hg : goodAbs path = true) :
      Step σ0 (DropboxClient.children σ0 path now remote).1
  | set (σ0 : Cache) (path : String) (md : Dict) (now : Int)
      (hg : goodAbs path = true) :
      Step σ0 (DropboxCache.set σ0 path md now)
  | pop (σ0 : Cache) (path : String) (hg : goodAbs path = true) :
      Step σ0 (DropboxCache.pop σ0 path).1
  | create_folder (σ0 : Cache) (path : String) (now : Int)
      (remote : Except ErrorResponse Dict) (hg : goodAbs path = true) :
      Step σ0 (DropboxClient.file_create_folder σ0 path now remote).1
  | copy (σ0 : Cache) (src dst : String) (now : Int)
      (remote : Except ErrorResponse Dict) (hgd : goodAbs dst = true) :
      Step σ0 (DropboxClient.file_copy σ0 src dst now remote).1
  | move (σ0 : Cache) (src dst : String) (now : Int)
      (remote : Except ErrorResponse Dict)
      (hgs : goodAbs src = true) (hgd : goodAbs dst = true) :
      Step σ0 (DropboxClient.file_move σ0 src dst now remote).1
  | delete (σ0 : Cache) (path : String) (remote : Except ErrorResponse Unit)
      (hg : goodAbs path = true) :
      Step σ0 (DropboxClient.file_delete σ0 path remote).1
  | put (σ0 : Cache) (path : String) (remote : Except ErrorResponse Dict)
      (hg : goodAbs path = true) :
      Step σ0 (DropboxClient.put_file σ0 path remote).1

/-- Cache states reachable from the empty cache by the operations of `Step`. -/
inductive Reachable : Cache → Prop where
  | empty : Reachable []
  | step {σ σ' : Cache} : Reachable σ → Step σ σ' → Reachable σ'

inductive StepOK : Cache → Cache → Prop where
  | metadata (σ0 : Cache) (path : String) (now : Int) (remote : Except ErrorResponse Dict)
      (hg : goodAbs path = true) :
      StepOK σ0 (DropboxClient.metadata σ0 path now remote).1.1
  | children (σ0 : Cache) (path : String) (now : Int)
      (remote : Option MVal → Except ErrorResponse ListingResp)
      (hg : goodAbs path = true)
      (hr : ∀ hsh resp, remote hsh = .ok resp → ListingWF path resp) :
      StepOK σ0 (DropboxClient.children σ0 path now remote).1
  | set (σ0 : Cache) (path : String) (md : Dict) (now : Int)
      (hg : goodAbs path = true) (hf : FreshFor σ0 path = true) :
      StepOK σ0 (DropboxCache.set σ0 path md now)
  | pop (σ0 : Cache) (path : String) (hg : goodAbs path = true) :
      StepOK σ0 (DropboxCache.pop σ0 path).1
  | create_folder (σ0 : Cache) (path : String) (now : Int)
      (remote : Except ErrorResponse Dict) (hg : goodAbs path = true)
      (hf : FreshFor σ0 path = true) :
      StepOK σ0 (DropboxClient.file_create_folder σ0 path now remote).1
  | copy (σ0 : Cache) (src dst : String) (now : Int)
      (remote : Except ErrorResponse Dict) (hgd : goodAbs dst = true)
      (hf : FreshFor σ0 dst = true) :
      StepOK σ0 (DropboxClient.file_copy σ0 src dst now remote).1
  | move (σ0 : Cache) (src dst : String) (now : Int)
      (remote : Except ErrorResponse Dict)
      (hgs : goodAbs src = true) (hgd : goodAbs dst = true)
      (hf : FreshFor (DropboxCache.pop σ0 src).1 dst = true) :
      StepOK σ0 (DropboxClient.file_move σ0 src dst now remote).1
  | delete (σ0 : Cache) (path : String) (remote : Except ErrorResponse Unit)
      (hg : goodAbs path = true) :
      StepOK σ0 (DropboxClient.file_delete σ0 path remote).1
  | put (σ0 : Cache) (path : String) (remote : Except ErrorResponse Dict)
      (hg : goodAbs path = true) :
      StepOK σ0 (DropboxClient.put_file σ0 path remote).1

/-- Cache states reachable from the empty cache by the operations of
`StepOK`. -/
inductive ReachableOK : Cache → Prop where
  | empty : ReachableOK []
  | step {σ σ' : Cache} : ReachableOK σ → StepOK σ σ' → ReachableOK σ'

theorem WF_stepOK {σ σ' : Cache} (h : WF σ) (hs : StepOK σ σ') : WF σ' := by
  cases hs with
  | metadata path now remote hg => exact WF_metadata h hg now remote
  | children path now remote hg hr => exact WF_children h hg now remote hr
  | set path md now hg hf => exact WF_set h hg hf md now
  | pop path hg => exact WF_pop h path
  | create_folder path now remote hg hf => exact WF_file_create_folder h hg hf now remote
  | copy src dst now remote hgd hf => exact WF_file_copy h hgd hf now remote
  | move src dst now remote hgs hgd hf => exact WF_file_move h hgd hf now remote
  | delete path remote hg => exact WF_file_delete h path remote
  | put path remote hg => exact WF_put_file h path remote

theorem WF_reachableOK {σ : Cache} (h : ReachableOK σ) : WF σ := by
  induction h with
  | empty => exact ⟨List.nodup_nil, fun e he => absurd he (List.not_mem_nil e)⟩
  | step _ hs ih => exact WF_stepOK ih hs

/-! ## Claim C3 (the children/entry invariant) -/

/-- C3 counterexample: the claim says every state reachable by the cache
operations satisfies the invariant.  Reachable refutation: set `/d`, set
`/d/x` twice (the parent's children becomes `["x", "x"]`), then pop `/d/x` —
the entry is gone but one `"x"` remains listed under `/d`. -/
theorem children_invariant_cex :
    Reachable (DropboxCache.pop (DropboxCache.set (DropboxCache.set
        (DropboxCache.set [] "/d" [] 0) "/d/x" [] 0) "/d/x" [] 0) "/d/x").1
    ∧ (DropboxCache.pop (DropboxCache.set (DropboxCache.set
        (DropboxCache.set [] "/d" [] 0) "/d/x" [] 0) "/d/x" [] 0) "/d/x").1
      = [("/d", ⟨some [], some ["x"], 0⟩)]
    ∧ ¬ Inv (DropboxCache.pop (DropboxCache.set (DropboxCache.set
        (DropboxCache.set [] "/d" [] 0) "/d/x" [] 0) "/d/x" [] 0) "/d/x").1 := by
  refine ⟨?_, by decide, by decide⟩
  exact Reachable.step (Reachable.step (Reachable.step (Reachable.step Reachable.empty
    (Step.set [] "/d" [] 0 (by decide)))
    (Step.set (DropboxCache.set [] "/d" [] 0) "/d/x" [] 0 (by decide)))
    (Step.set (DropboxCache.set (DropboxCache.set [] "/d" [] 0) "/d/x" [] 0)
      "/d/x" [] 0 (by decide)))
    (Step.pop (DropboxCache.set (DropboxCache.set
      (DropboxCache.set [] "/d" [] 0) "/d/x" [] 0) "/d/x" [] 0) "/d/x" (by decide))

/-- C3 as amended: restrict the operation sequences to those in which every
`set` (also the ones inside `create_folder`/`copy`/`move`) targets a path not
already listed in its parent's cached children, and every listing fetch
returns contents whose paths are the listed directory joined with pairwise
distinct, nonempty, separator-free basenames.  Every store state reachable
that way satisfies the invariant: an entry for `P` with `children` present
has an entry at `P/name` for every listed name. -/
theorem children_invariant_of_reachable {σ : Cache} (h : ReachableOK σ) : Inv σ :=
  WF_inv (WF_reachableOK h)

/-- C3 witness: the invariant obtained for a concrete two-step reachable
state. -/
theorem children_invariant_of_reachable_witness :
    Inv (DropboxCache.set (DropboxCache.set [] "/a" [] 0) "/a/b" [] 0) :=
  children_invariant_of_reachable
    (ReachableOK.step (ReachableOK.step ReachableOK.empty
      (StepOK.set [] "/a" [] 0 (by decide) (by decide)))
      (StepOK.set (DropboxCache.set [] "/a" [] 0) "/a/b" [] 0 (by decide) (by decide)))

/-! ## Claim C6 (removing an absent path) -/

/-- C6 counterexample: the claim says popping a path absent from the store
returns the default and leaves the entire store unchanged, including the
parent's children.  On a store whose parent entry holds a dangling name
(reachable, see `children_invariant_cex`), `pop` still runs `del_child` and
mutates the parent's children sequence. -/
theorem pop_absent_mutates_cex :
    clookup [("/d", ⟨some [], some ["x"], 0⟩)] "/d/x" = none
    ∧ (DropboxCache.pop [("/d", ⟨some [], some ["x"], 0⟩)] "/d/x").2 = none
    ∧ (DropboxCache.pop [("/d", ⟨some [], some ["x"], 0⟩)] "/d/x").1
        ≠ [("/d", ⟨some [], some ["x"], 0⟩)] := by
  refine ⟨rfl, rfl, ?_⟩
  decide

/-- C6 as amended: on a well-formed store (in particular one satisfying the
children/entry invariant), popping an absent normalized absolute path is a
no-op returning the default `none`: the basename cannot occur in the parent's
children, so `del_child` does nothing. -/
theorem pop_absent_noop {σ : Cache} (p : String) (h : WF σ) (hg : goodAbs p = true)
    (habs : clookup σ p = none) : DropboxCache.pop σ p = (σ, none) := by
  obtain ⟨hjoin, _⟩ := joinp_pathsplit hg
  rcases hps : pathsplit p with ⟨d, b⟩
  rw [hps] at hjoin
  dsimp only at hjoin
  have hdel : cdel σ p = σ := cdel_of_not_mem habs
  unfold DropboxCache.pop
  rw [hps]
  dsimp only
  rw [hdel, habs]
  cases hd : clookup σ d with
  | none => rfl
  | some item =>
    dsimp only
    have hent := h.entry hd
    have hitem : item.del_child b = item := by
      unfold CacheItem.del_child
      cases hch : item.children with
      | none => rfl
      | some cs =>
        dsimp only
        rw [if_neg ?_]
        intro hb
        have hcOK := hent.2
        rw [hch] at hcOK
        have := (hcOK.2 b hb).2
        rw [hjoin, habs] at this
        cases this
    rw [hitem, cstore_self hd]

/-- C6 witness: the amended no-op evaluated on a concrete two-entry
well-formed store and an absent path. -/
theorem pop_absent_noop_witness :
    DropboxCache.pop [("/d", ⟨some [], some ["x"], 0⟩), ("/d/x", ⟨some [], none, 0⟩)] "/d/y"
      = ([("/d", ⟨some [], some ["x"], 0⟩), ("/d/x", ⟨some [], none, 0⟩)], none) :=
  pop_absent_noop "/d/y" (by decide) (by decide) (by decide)

/-! ## Claim C2 (parent children coupling of `set` and `pop`) -/

/-- C2 counterexample: the claim says that after `set(D/"child")` the parent
entry's children sequence contains `"child"` exactly once, repeated `set`
included.  `add_child` appends unconditionally: setting `/d/x` while the
parent `/d` already lists `"x"` leaves `"x"` twice. -/
theorem set_duplicates_child_cex :
    ((clookup (DropboxCache.set
        [("/d", ⟨some [], some ["x"], 0⟩), ("/d/x", ⟨some [], none, 0⟩)]
        "/d/x" [] 5) "/d").map CacheItem.children) = some (some ["x", "x"])
    ∧ (["x", "x"].count "x" ≠ 1) := by
  constructor
  · rfl
  · decide

/-- C2 as amended: with `pathsplit p = (d, b)` and a cached parent entry at
`d ≠ p` whose children sequence is `cs`, `set` appends `b` — so `b` occurs
once more than before, and exactly once only when it was absent — and `pop`
removes the first occurrence of `b` — so `b` is absent afterwards only when
it occurred at most once. -/
theorem set_pop_children_counts (σ : Cache) (p : String) (md : Dict) (now : Int)
    (d b : String) (item : CacheItem) (cs : List String)
    (hsplit : pathsplit p = (d, b)) (hdp : d ≠ p)
    (hit : clookup σ d = some item) (hcs : item.children = some cs) :
    (clookup (DropboxCache.set σ p md now) d = some (item.add_child b)
      ∧ (item.add_child b).children = some (cs ++ [b])
      ∧ (cs ++ [b]).count b = cs.count b + 1
      ∧ (b ∉ cs → (cs ++ [b]).count b = 1))
    ∧ (clookup (DropboxCache.pop σ p).1 d = some (item.del_child b)
      ∧ (item.del_child b).children = some (cs.erase b)
      ∧ (cs.count b ≤ 1 → b ∉ cs.erase b)) := by
  have hadd : (item.add_child b).children = some (cs ++ [b]) := by
    unfold CacheItem.add_child
    rw [hcs]
  have hdel : (item.del_child b).children = some (cs.erase b) := by
    unfold CacheItem.del_child
    rw [hcs]
    dsimp only
    by_cases hb : b ∈ cs
    · rw [if_pos hb]
    · rw [if_neg hb, List.erase_of_not_mem hb]
      exact hcs
  have hcount : (cs ++ [b]).count b = cs.count b + 1 := by
    simp [List.count_append]
  refine ⟨⟨?_, hadd, hcount, ?_⟩, ⟨?_, hdel, ?_⟩⟩
  · unfold DropboxCache.set
    rw [hsplit]
    dsimp only
    rw [clookup_cstore, if_neg hdp, hit]
    rw [clookup_cstore, if_pos rfl]
  · intro hb
    rw [hcount, List.count_eq_zero.mpr hb]
  · unfold DropboxCache.pop
    rw [hsplit]
    dsimp only
    rw [clookup_cdel_ne σ p d hdp, hit]
    rw [clookup_cstore, if_pos rfl]
  · intro hle
    have := List.count_erase_self b cs
    intro hmem
    have hpos := List.count_pos_iff.mpr hmem
    omega

/-- C2 witness: the amended statement evaluated on a two-entry cache whose
parent `/d` lists `"y"` once, setting and popping `/d/y`. -/
theorem set_pop_children_counts_witness :
    (clookup (DropboxCache.set
        [("/d", ⟨some [], some ["y"], 0⟩), ("/d/y", ⟨some [], none, 0⟩)] "/d/y" [] 7) "/d"
      = some ((⟨some [], some ["y"], 0⟩ : CacheItem).add_child "y")
      ∧ ((⟨some [], some ["y"], 0⟩ : CacheItem).add_child "y").children = some (["y"] ++ ["y"])
      ∧ ((["y"] ++ ["y"]).count "y" = ["y"].count "y" + 1)
      ∧ ("y" ∉ (["y"] : List String) → (["y"] ++ ["y"]).count "y" = 1))
    ∧ (clookup (DropboxCache.pop
        [("/d", ⟨some [], some ["y"], 0⟩), ("/d/y", ⟨some [], none, 0⟩)] "/d/y").1 "/d"
      = some ((⟨some [], some ["y"], 0⟩ : CacheItem).del_child "y")
      ∧ ((⟨some [], some ["y"], 0⟩ : CacheItem).del_child "y").children
        = some ((["y"] : List String).erase "y")
      ∧ ((["y"] : List String).count "y" ≤ 1 → "y" ∉ (["y"] : List String).erase "y")) :=
  set_pop_children_counts
    [("/d", ⟨some [], some ["y"], 0⟩), ("/d/y", ⟨some [], none, 0⟩)]
    "/d/y" [] 7 "/d" "y" ⟨some [], some ["y"], 0⟩ ["y"]
    (by decide) (by decide) rfl rfl

/-! ## Claim C8 (metadata cache hit) -/

theorem getD_append_len (l : List Dict) (x : Dict) : (l ++ [x]).getD l.length [] = x := by
  induction l with
  | nil => rfl
  | cons a t ih => simpa [List.getD] using ih

theorem getD_append_lt (l : List Dict) (x : Dict) (i : Nat) (h : i < l.length) :
    (l ++ [x]).getD i [] = l.getD i [] := by
  induction l generalizing i with
  | nil => simp at h
  | cons a t ih =>
    cases i with
    | zero => rfl
    | succ j =>
      simp only [List.length_cons, Nat.succ_lt_succ_iff] at h
      exact ih j h

theorem getD_set_ne (l : List Dict) (j i : Nat) (d : Dict) (h : i ≠ j) :
    (l.set j d).getD i [] = l.getD i [] := by
  induction l generalizing i j with
  | nil => rfl
  | cons a t ih =>
    cases j with
    | zero =>
      cases i with
      | zero => exact absurd rfl h
      | succ k => rfl
    | succ j' =>
      cases i with
      | zero => rfl
      | succ k => simpa [List.getD] using ih j' k (fun hk => h (by rw [hk]))

/-- C8: with a fresh (non-expired) cached entry carrying metadata,
`DropboxClient.metadata` makes zero remote calls, leaves the cache unchanged,
and returns `dict(item.metadata.items())` — a record equal to the cached one.
At the heap level, that expression allocates a fresh dict cell with the same
entries as the cached cell, so mutating the returned cell cannot change the
cell held by the store. -/
theorem metadata_cache_hit (σ : Cache) (path : String) (now : Int)
    (remote : Except ErrorResponse Dict) (item : CacheItem) (md : Dict)
    (hit : clookup σ path = some item) (hmd : item.metadata = some md)
    (hfresh : item.expired now = false) :
    DropboxClient.metadata σ path now remote = ((σ, .ok (dictCopy md)), 0)
    ∧ dictCopy md = md
    ∧ (∀ (cells : List Dict) (src : Nat), src < cells.length →
        (dictHeapCopy cells src).2 ≠ src
        ∧ (dictHeapCopy cells src).1.getD (dictHeapCopy cells src).2 [] = cells.getD src []
        ∧ ∀ d', ((dictHeapCopy cells src).1.set (dictHeapCopy cells src).2 d').getD src []
            = cells.getD src []) := by
  refine ⟨?_, rfl, ?_⟩
  · unfold DropboxClient.metadata
    rw [hit]
    dsimp only
    rw [hmd]
    dsimp only
    rw [hfresh]
    simp
  · intro cells src hsrc
    refine ⟨by unfold dictHeapCopy; omega, ?_, ?_⟩
    · unfold dictHeapCopy
      exact getD_append_len cells (cells.getD src [])
    · intro d'
      unfold dictHeapCopy
      rw [getD_set_ne _ _ _ _ (by omega)]
      exact getD_append_lt cells _ src hsrc

/-- C8 witness: the hit-path behavior evaluated on a one-entry cache whose
entry is ten seconds old, against a remote that would fail if consulted, and
the heap copy evaluated on a one-cell heap. -/
theorem metadata_cache_hit_witness :
    DropboxClient.metadata [("/a", ⟨some [("size", .vi 5)], none, 10⟩)] "/a" 100
        (.error ⟨500, "server error"⟩)
      = (([("/a", ⟨some [("size", .vi 5)], none, 10⟩)], .ok (dictCopy [("size", .vi 5)])), 0)
    ∧ dictCopy [("size", .vi 5)] = [("size", .vi 5)]
    ∧ (∀ (cells : List Dict) (src : Nat), src < cells.length →
        (dictHeapCopy cells src).2 ≠ src
        ∧ (dictHeapCopy cells src).1.getD (dictHeapCopy cells src).2 [] = cells.getD src []
        ∧ ∀ d', ((dictHeapCopy cells src).1.set (dictHeapCopy cells src).2 d').getD src []
            = cells.getD src []) :=
  metadata_cache_hit [("/a", ⟨some [("size", .vi 5)], none, 10⟩)] "/a" 100
    (.error ⟨500, "server error"⟩) ⟨some [("size", .vi 5)], none, 10⟩ [("size", .vi 5)]
    rfl rfl (by decide)

end DropboxFs
